import Mathlib

set_option maxRecDepth 8000

/-!
Verification development for the dock-tor container vulnerability scanner.

The definitions below are a shallow embedding of the Python source under
`src/app/` (domain_types.py, scanner.py, reporting.py, main.py): Python
dictionaries become association lists with first-match lookup and
replace-in-place / append-at-end assignment, exceptions become `Except`,
and the global `settings` values flow in as explicit parameters.
-/

/-- ASCII uppercase of a string, mirroring Python `str.upper` on ASCII input. -/
def upper (s : String) : String := ⟨s.data.map Char.toUpper⟩

/-- ASCII lowercase of a string, mirroring Python `str.lower` on ASCII input. -/
def lower (s : String) : String := ⟨s.data.map Char.toLower⟩

/-- Python `s.split("=")` over the character list. -/
def splitEqChars : List Char → List (List Char)
  | [] => [[]]
  | c :: rest =>
    let r := splitEqChars rest
    if c = '=' then [] :: r
    else
      match r with
      | h :: t => (c :: h) :: t
      | [] => [[c]]

/-- Python `s.split("=")`. -/
def splitEq (s : String) : List String := (splitEqChars s.data).map (fun cs => ⟨cs⟩)

/-- First-match lookup in an association list (a Python dict read). -/
def alookup {α : Type} : List (String × α) → String → Option α
  | [], _ => none
  | (k, v) :: rest, key => if k = key then some v else alookup rest key

/-- Python `d.get(key, dflt)`. -/
def lookupD {α : Type} (m : List (String × α)) (key : String) (dflt : α) : α :=
  (alookup m key).getD dflt

/-- Python dict assignment `d[key] = v`: replace in place if the key exists,
otherwise append at the end (dict insertion order). -/
def aset {α : Type} : List (String × α) → String → α → List (String × α)
  | [], key, v => [(key, v)]
  | (k, w) :: rest, key, v =>
    if k = key then (key, v) :: rest else (k, w) :: aset rest key v

/-- Python `d[key] = d.get(key, 0) + 1` as performed on `sev_counts`. -/
def bump (m : List (String × Nat)) (key : String) : List (String × Nat) :=
  aset m key (lookupD m key 0 + 1)

/-- Python `sum(d.values())`. -/
def sumVals (m : List (String × Nat)) : Nat := (m.map (fun p => p.2)).sum

/-- Severity ordering (lowest -> highest), `SEVERITY_ORDER` in domain_types.py. -/
def SEVERITY_ORDER : List String := ["UNKNOWN", "LOW", "MEDIUM", "HIGH", "CRITICAL"]

/-- Index of the first occurrence of a string in a list (`list.index`, and the
`_SEV_RANK` dict built by enumerating `SEVERITY_ORDER`). -/
def sevIndex : List String → String → Option Nat
  | [], _ => none
  | x :: xs, s => if x = s then some 0 else (sevIndex xs s).map (fun n => n + 1)

/-- Python `_SEV_RANK.get(s, 0)` from domain_types.py. -/
def rankOf (s : String) : Nat := (sevIndex SEVERITY_ORDER s).getD 0

/-- meets_threshold from domain_types.py: falsy (empty) severity becomes
UNKNOWN, falsy (empty) threshold becomes LOW, both uppercased, then the ranks
are compared with unrecognized strings ranking 0. -/
def meets_threshold (severity threshold : String) : Bool :=
  let s := if severity = "" then "UNKNOWN" else upper severity
  let t := if threshold = "" then "LOW" else upper threshold
  decide (rankOf s ≥ rankOf t)

/-- Rank as the specification describes it: case-folded lookup of the level in
the canonical ordering, with every unrecognized or empty input normalized to
UNKNOWN (rank 0). This definition follows the spec's words, to be compared
with the code's `meets_threshold`. -/
def specRank (level : String) : Nat := (sevIndex SEVERITY_ORDER (upper level)).getD 0

/-- Embedded vulnerability record as reporting reads it: the `Severity` and
`image` keys accessed with `get`, plus an identifier standing for the
remaining payload fields. `none` models an absent key. -/
structure Vulnerability where
  severity : Option String := none
  image : Option String := none
  vulnId : String := ""
deriving DecidableEq

/-- Raw vulnerability entry of the Trivy JSON artifact as scan_image iterates
it: either not a JSON object (`isDict = false`, so `vuln.get` raises), or an
object with an optional `Severity` string and possibly its own `image` key
(which makes `Vulnerability(image=image_ref, **vuln)` raise a TypeError for a
duplicate keyword). A string-valued `Severity` covers the artifact cases,
since `str()` of a string is itself. -/
structure RawVuln where
  isDict : Bool := true
  severity : Option String := none
  hasImageKey : Bool := false
  vulnId : String := ""
deriving DecidableEq

/-- ScanResult from domain_types.py. -/
structure ScanResult where
  image : String
  findings : Nat := 0
  sev_counts : List (String × Nat) := []
  json_path : String := ""
  vulnerabilities : List Vulnerability := []
  containers : List String := []
deriving DecidableEq

/-- Accumulator of the parse loop in scan_image:
(findings, sev_counts, vulnerabilities). -/
abbrev ScanState := Nat × List (String × Nat) × List Vulnerability

/-- The `Vulnerability(image=image_ref, **vuln)` construction: the finding
keeps the raw record's fields verbatim and gains the denormalized image. -/
def mkFinding (imageRef : String) (rv : RawVuln) : Vulnerability :=
  { severity := rv.severity, image := some imageRef, vulnId := rv.vulnId }

/-- Uppercased severity of a raw record,
`str(vuln.get("Severity", "UNKNOWN")).upper()`. -/
def rawSev (rv : RawVuln) : String := upper (rv.severity.getD "UNKNOWN")

/-- One iteration of the vulnerability loop in scan_image. `Except.error`
models an exception escaping to the single handler wrapped around the whole
loop, carrying the state accumulated so far: `findings` was already
incremented, and for the duplicate-image-key TypeError `sev_counts` was
already bumped as well. -/
def procRecord (imageRef : String) (st : ScanState) (rv : RawVuln) :
    Except ScanState ScanState :=
  let st1 : ScanState := (st.1 + 1, st.2.1, st.2.2)
  if rv.isDict = false then Except.error st1
  else
    let st2 : ScanState := (st1.1, bump st1.2.1 (rawSev rv), st1.2.2)
    if rv.hasImageKey then Except.error st2
    else Except.ok (st2.1, st2.2.1, st2.2.2 ++ [mkFinding imageRef rv])

/-- The inner `for vuln in result.get("Vulnerabilities", []) or []` loop. -/
def procList (imageRef : String) : ScanState → List RawVuln → Except ScanState ScanState
  | st, [] => Except.ok st
  | st, rv :: rest =>
    match procRecord imageRef st rv with
    | Except.ok st' => procList imageRef st' rest
    | Except.error st' => Except.error st'

/-- The outer `for result in data.get("Results", [])` loop; an exception in
the inner loop aborts this loop as well. -/
def procResults (imageRef : String) :
    ScanState → List (List RawVuln) → Except ScanState ScanState
  | st, [] => Except.ok st
  | st, l :: rest =>
    match procList imageRef st l with
    | Except.ok st' => procResults imageRef st' rest
    | Except.error st' => Except.error st'

/-- scan_image from scanner.py over the parsed JSON artifact: `data` is the
list of `Results` entries, each a list of raw vulnerability records (an
unreadable artifact parses as no results at all). The `try/except ... pass`
around the whole loop keeps whatever state was accumulated when a record
raised. -/
def scan_image (imageRef : String) (data : List (List RawVuln)) : ScanResult :=
  let st : ScanState :=
    match procResults imageRef (0, [], []) data with
    | Except.ok st => st
    | Except.error st => st
  { image := imageRef, findings := st.1, sev_counts := st.2.1,
    json_path := "", vulnerabilities := st.2.2, containers := [] }

/-- A Docker container as scan_all and has_exclude_label read it: its name,
its `Config.Labels` mapping, the tag list of its image and the image id. -/
structure Container where
  name : String
  labels : List (String × String) := []
  imageTags : List String := []
  imageId : String := ""
deriving DecidableEq

/-- has_exclude_label from scanner.py: true when the fixed `docktor.ignore`
label is `"true"` (case-insensitively), or when the label named by the
configured `key=value` pair has (lowercased) value equal to `value`. A
configured exclusion label without `=` makes `split("=")[1]` raise an
IndexError that the handler swallows to False (the first disjunct having
already been found false). -/
def has_exclude_label (excludeLabel : String) (c : Container) : Bool :=
  if lower (lookupD c.labels "docktor.ignore" "false") = "true" then true
  else
    match splitEq excludeLabel with
    | k :: v :: _ => decide (lower (lookupD c.labels k "false") = v)
    | _ => false

/-- The image reference scan_all picks for a container: its first tag when
tags exist, otherwise the image id. -/
def imageOf (c : Container) : String :=
  match c.imageTags with
  | t :: _ => t
  | [] => c.imageId

/-- First half of scan_all: walk the containers, skip excluded ones, collect
every chosen image reference and the image -> container-names mapping built
with `mapping.setdefault(image_ref, []).append(c.name)`. -/
def dedupFold (excludeLabel : String) (containers : List Container) :
    List String × List (String × List String) :=
  containers.foldl
    (fun acc c =>
      if has_exclude_label excludeLabel c then acc
      else
        (acc.1 ++ [imageOf c],
          aset acc.2 (imageOf c) (lookupD acc.2 (imageOf c) [] ++ [c.name])))
    ([], [])

/-- The `unique_refs = sorted(set(image_refs))` line of scan_all. -/
def unique_refs (excludeLabel : String) (containers : List Container) : List String :=
  List.insertionSort (fun a b : String => a ≤ b) (dedupFold excludeLabel containers).1.dedup

/-- The container-name mapping scan_all attaches to each result. -/
def container_mapping (excludeLabel : String) (containers : List Container) :
    List (String × List String) :=
  (dedupFold excludeLabel containers).2

/-- The `list(reversed(SEVERITY_ORDER))` of reporting.py. -/
def revSeverityOrder : List String := SEVERITY_ORDER.reverse

/-- Inner dictionary of the grouping: severity -> bucket of findings. -/
abbrev SevMap := List (String × List Vulnerability)

/-- The grouping dictionary: image -> severity -> bucket. -/
abbrev Grouped := List (String × SevMap)

/-- The fresh `{sev: [] for sev in rev_severity_order}` dictionary. -/
def initSevMap : SevMap := revSeverityOrder.map (fun s => (s, []))

/-- The `v.get("image") or "<unknown>"` image key of a finding (a missing or
empty image field is falsy). -/
def effImage (v : Vulnerability) : String :=
  match v.image with
  | some s => if s = "" then "<unknown>" else s
  | none => "<unknown>"

/-- The `v.get("Severity", "UNKNOWN").upper()` severity key of a finding. -/
def sevUp (v : Vulnerability) : String := upper (v.severity.getD "UNKNOWN")

/-- The two inner statements of the `for v in filtered_vulns` loop: create
the severity bucket if absent, then append the finding to it. -/
def bucketAppend (m : SevMap) (sev : String) (v : Vulnerability) : SevMap :=
  let m1 := if (alookup m sev).isSome then m else aset m sev []
  aset m1 sev ((alookup m1 sev).getD [] ++ [v])

/-- One iteration of the `for v in filtered_vulns` loop of
group_vulns_by_image_and_severity: create the image group if absent, then
create the severity bucket if absent and append the finding to it. -/
def addVuln (g : Grouped) (v : Vulnerability) : Grouped :=
  let img := effImage v
  let g1 := if (alookup g img).isSome then g else aset g img initSevMap
  aset g1 img (bucketAppend ((alookup g1 img).getD []) (sevUp v) v)

/-- The `grouped[r.image] = {sev: [] for sev in rev_severity_order}` pass over
all results. -/
def groupInit (results : List ScanResult) : Grouped :=
  results.foldl (fun g r => aset g r.image initSevMap) []

/-- `_aggregate_vulns` followed by the threshold filter of
group_vulns_by_image_and_severity, with the `settings.min_notify_severity`
threshold passed explicitly. -/
def filteredVulns (results : List ScanResult) (threshold : String) : List Vulnerability :=
  (results.flatMap (fun r => r.vulnerabilities)).filter
    (fun v => meets_threshold (v.severity.getD "UNKNOWN") threshold)

/-- The fully populated grouping dictionary of
group_vulns_by_image_and_severity. -/
def groupedDict (results : List ScanResult) (threshold : String) : Grouped :=
  (filteredVulns results threshold).foldl addVuln (groupInit results)

/-- One entry of the compact grouped report:
`{"image": ..., "severities": [{"severity": sev, "items": [...]}, ...]}`. -/
structure GroupEntry where
  image : String
  severities : List (String × List Vulnerability)
deriving DecidableEq

/-- The `grouped_compact` construction: per image, emit the canonical
severities in descending order, keeping only buckets that exist and are
nonempty. -/
def compactGrouped (g : Grouped) : List GroupEntry :=
  g.map (fun p =>
    { image := p.1,
      severities :=
        (revSeverityOrder.filter
          (fun sev => (alookup p.2 sev).isSome && !((alookup p.2 sev).getD []).isEmpty)).map
          (fun sev => (sev, (alookup p.2 sev).getD [])) })

/-- group_vulns_by_image_and_severity from reporting.py. -/
def group_vulns_by_image_and_severity (results : List ScanResult) (threshold : String) :
    List GroupEntry :=
  compactGrouped (groupedDict results threshold)

/-- group_vulns_by_image_and_severity with the input result list threaded as
an explicit store, mirroring that every container the Python function writes
to (the grouping dictionaries and their bucket lists) is created inside the
function: no step writes the store, which is handed back unchanged next to
the computed report. -/
def group_vulns_st (store : List ScanResult) (threshold : String) :
    List ScanResult × List GroupEntry :=
  let grouped := (filteredVulns store threshold).foldl addVuln (groupInit store)
  (store, compactGrouped grouped)

/-- The `any_trigger` expression of main.py. -/
def shouldNotify (results : List ScanResult) (threshold : String) : Bool :=
  results.any (fun r =>
    r.vulnerabilities.any (fun v => meets_threshold (v.severity.getD "UNKNOWN") threshold))

/-- Python single-character `str.replace` with a single-character value. -/
def replaceChar (a b : Char) (s : String) : String :=
  ⟨s.data.map (fun c => if c = a then b else c)⟩

/-- The `image_safe` name used in attachment file names. -/
def imageSafe (image : String) : String := replaceChar ':' '_' (replaceChar '/' '_' image)

/-- Attachment names and MIME types produced by build_attachments: a Markdown
report per result, plus the JSON artifact when settings.attach_json is set. -/
def build_attachment_names (attachJson : Bool) (results : List ScanResult) :
    List (String × String) :=
  results.flatMap (fun r =>
    ("report_" ++ imageSafe r.image ++ ".md", "text/markdown") ::
      (if attachJson then [("trivy_" ++ imageSafe r.image ++ ".json", "application/json")]
       else []))

/-- Post-scan part of main from main.py: `none` models the early returns
(no results, or the notification gate not triggered) where nothing is
rendered, no attachments are built and no email is sent; `some` carries the
grouped report handed to rendering together with the attachment list handed
to the email sender. -/
def mainRun (results : List ScanResult) (threshold : String) (attachJson : Bool) :
    Option (List GroupEntry × List (String × String)) :=
  if results.isEmpty then none
  else if shouldNotify results threshold then
    some (group_vulns_by_image_and_severity results threshold,
      build_attachment_names attachJson results)
  else none

/-- The sort key of `ordered_vulns` in build_attachments:
`- SEVERITY_ORDER.index(sev)` for a canonical uppercased severity, else
`- len(SEVERITY_ORDER)`. -/
def sortKey (v : Vulnerability) : Int :=
  if sevUp v ∈ SEVERITY_ORDER then -(((sevIndex SEVERITY_ORDER (sevUp v)).getD 0 : Nat) : Int)
  else -(SEVERITY_ORDER.length : Int)

/-- Ordering relation of the `sorted(...)` call in build_attachments. -/
def sortLe (a b : Vulnerability) : Prop := sortKey a ≤ sortKey b

instance : DecidableRel sortLe := fun a b => Int.decLe (sortKey a) (sortKey b)

instance : IsTotal Vulnerability sortLe := ⟨fun a b => Int.le_total (sortKey a) (sortKey b)⟩

instance : IsTrans Vulnerability sortLe :=
  ⟨fun _ _ _ h1 h2 => le_trans h1 h2⟩

/-- The `ordered_vulns` list of build_attachments: Python `sorted` is a
stable ascending sort by the key, modeled by insertion sort. -/
def orderedVulns (r : ScanResult) : List Vulnerability :=
  List.insertionSort sortLe r.vulnerabilities

/-! Association-list lemmas: Python dict reads after an assignment. -/

theorem alookup_aset {α : Type} (m : List (String × α)) (k : String) (v : α) (k' : String) :
    alookup (aset m k v) k' = if k' = k then some v else alookup m k' := by
  induction m with
  | nil =>
    simp only [aset, alookup]
    by_cases h : k = k'
    · rw [if_pos h, if_pos h.symm]
    · rw [if_neg h, if_neg (fun hh => h hh.symm)]
  | cons p rest ih =>
    obtain ⟨a, b⟩ := p
    by_cases hak : a = k
    · subst hak
      simp only [aset, if_pos rfl, alookup]
      by_cases h : a = k'
      · rw [if_pos h, if_pos h.symm]
      · rw [if_neg h, if_neg (fun hh => h hh.symm), if_neg h]
    · simp only [aset, if_neg hak, alookup, ih]
      by_cases h1 : a = k'
      · have h2 : ¬k' = k := fun hh => hak (h1.trans hh)
        rw [if_pos h1, if_neg h2, if_pos h1]
      · rw [if_neg h1]
        by_cases h2 : k' = k
        · rw [if_pos h2, if_pos h2]
        · rw [if_neg h2, if_neg h2, if_neg h1]

theorem alookup_eq_none {α : Type} (m : List (String × α)) (k : String) :
    alookup m k = none ↔ k ∉ m.map Prod.fst := by
  induction m with
  | nil => simp [alookup]
  | cons p rest ih =>
    obtain ⟨a, b⟩ := p
    simp only [alookup, List.map_cons, List.mem_cons]
    split_ifs with h <;> simp_all [eq_comm]

theorem keys_aset {α : Type} (m : List (String × α)) (k : String) (v : α) :
    (aset m k v).map Prod.fst =
      if (alookup m k).isSome then m.map Prod.fst else m.map Prod.fst ++ [k] := by
  induction m with
  | nil => simp [aset, alookup]
  | cons p rest ih =>
    obtain ⟨a, b⟩ := p
    simp only [aset, alookup]
    split_ifs with h <;> simp_all

theorem nodup_keys_aset {α : Type} (m : List (String × α)) (k : String) (v : α)
    (h : (m.map Prod.fst).Nodup) : ((aset m k v).map Prod.fst).Nodup := by
  rw [keys_aset]
  split_ifs with hs
  · exact h
  · have hk : k ∉ m.map Prod.fst := by
      rw [← alookup_eq_none]
      cases he : alookup m k <;> simp_all
    simp [List.nodup_append, h, hk]

theorem alookup_of_mem {α : Type} (m : List (String × α)) (h : (m.map Prod.fst).Nodup)
    (k : String) (v : α) (hm : (k, v) ∈ m) : alookup m k = some v := by
  induction m with
  | nil => simp at hm
  | cons p rest ih =>
    obtain ⟨a, b⟩ := p
    simp only [List.map_cons, List.nodup_cons] at h
    rcases List.mem_cons.mp hm with h1 | h1
    · obtain ⟨rfl, rfl⟩ := Prod.mk.injEq .. ▸ h1
      simp [alookup]
    · have hk : a ≠ k := by
        rintro rfl
        exact h.1 (List.mem_map.mpr ⟨(a, v), h1, rfl⟩)
      simp only [alookup, if_neg hk]
      exact ih h.2 h1

/-! Counter-map lemmas for `sev_counts`. -/

theorem lookupD_bump (m : List (String × Nat)) (k k' : String) :
    lookupD (bump m k) k' 0 = lookupD m k' 0 + if k' = k then 1 else 0 := by
  simp only [bump, lookupD, alookup_aset]
  split_ifs with h
  · subst h; simp [lookupD]
  · simp

theorem isSome_alookup_bump (m : List (String × Nat)) (k k' : String) :
    (alookup (bump m k) k').isSome = ((alookup m k').isSome || (k' == k)) := by
  simp only [bump, alookup_aset]
  split_ifs with h <;> simp [h]

theorem sumVals_bump (m : List (String × Nat)) (k : String) :
    sumVals (bump m k) = sumVals m + 1 := by
  induction m with
  | nil => simp [bump, aset, sumVals, lookupD, alookup]
  | cons p rest ih =>
    obtain ⟨a, b⟩ := p
    by_cases h : a = k
    · subst h
      simp [bump, aset, sumVals, lookupD, alookup]
      omega
    · have hb : bump ((a, b) :: rest) k = (a, b) :: bump rest k := by
        simp [bump, aset, lookupD, alookup, h]
      rw [hb]
      simp only [sumVals, List.map_cons, List.sum_cons] at ih ⊢
      omega

theorem lookupD_foldl_bump (ks : List String) (m : List (String × Nat)) (k : String) :
    lookupD (ks.foldl bump m) k 0 = lookupD m k 0 + ks.count k := by
  induction ks generalizing m with
  | nil => simp
  | cons x xs ih =>
    rw [List.foldl_cons, ih, lookupD_bump, List.count_cons]
    simp only [beq_iff_eq]
    by_cases h : k = x
    · rw [if_pos h, if_pos h.symm]
      omega
    · rw [if_neg h, if_neg (fun hh => h hh.symm)]
      omega

theorem isSome_alookup_foldl_bump (ks : List String) (m : List (String × Nat)) (k : String) :
    (alookup (ks.foldl bump m) k).isSome = ((alookup m k).isSome || ks.contains k) := by
  induction ks generalizing m with
  | nil => simp
  | cons x xs ih =>
    simp only [List.foldl_cons, ih, isSome_alookup_bump, List.contains_cons]
    cases he : (alookup m k).isSome <;> simp [Bool.or_comm, Bool.or_assoc, Bool.or_left_comm]

theorem sumVals_foldl_bump (ks : List String) (m : List (String × Nat)) :
    sumVals (ks.foldl bump m) = sumVals m + ks.length := by
  induction ks generalizing m with
  | nil => simp
  | cons x xs ih =>
    simp only [List.foldl_cons, ih, sumVals_bump, List.length_cons]
    omega

/-! Closed forms of the scan_image parse loop. -/

theorem procRecord_wf (imageRef : String) (st : ScanState) (rv : RawVuln)
    (h1 : rv.isDict = true) (h2 : rv.hasImageKey = false) :
    procRecord imageRef st rv =
      Except.ok (st.1 + 1, bump st.2.1 (rawSev rv), st.2.2 ++ [mkFinding imageRef rv]) := by
  simp [procRecord, h1, h2]

theorem procRecord_bad (imageRef : String) (st : ScanState) (rv : RawVuln)
    (h : ¬(rv.isDict = true ∧ rv.hasImageKey = false)) :
    ∃ m, procRecord imageRef st rv = Except.error (st.1 + 1, m, st.2.2) := by
  by_cases hd : rv.isDict = true
  · have hk : rv.hasImageKey = true := by
      cases hi : rv.hasImageKey
      · exact absurd ⟨hd, hi⟩ h
      · rfl
    exact ⟨bump st.2.1 (rawSev rv), by simp [procRecord, hd, hk]⟩
  · have hd' : rv.isDict = false := by
      cases hi : rv.isDict
      · rfl
      · exact absurd hi hd
    exact ⟨st.2.1, by simp [procRecord, hd']⟩

theorem procList_wf (imageRef : String) (l : List RawVuln) (st : ScanState)
    (h : ∀ rv ∈ l, rv.isDict = true ∧ rv.hasImageKey = false) :
    procList imageRef st l =
      Except.ok (st.1 + l.length, (l.map rawSev).foldl bump st.2.1,
        st.2.2 ++ l.map (mkFinding imageRef)) := by
  induction l generalizing st with
  | nil => simp [procList]
  | cons rv rest ih =>
    have h0 := h rv (List.mem_cons_self rv rest)
    simp only [procList, procRecord_wf imageRef st rv h0.1 h0.2]
    rw [ih (st.1 + 1, bump st.2.1 (rawSev rv), st.2.2 ++ [mkFinding imageRef rv])
      (fun x hx => h x (List.mem_cons_of_mem rv hx))]
    simp only [List.map_cons, List.foldl_cons, List.length_cons, List.append_assoc,
      List.singleton_append, Except.ok.injEq, Prod.mk.injEq]
    exact ⟨by omega, trivial⟩

theorem procList_append (imageRef : String) (st : ScanState) (l1 l2 : List RawVuln) :
    procList imageRef st (l1 ++ l2) =
      match procList imageRef st l1 with
      | Except.ok st' => procList imageRef st' l2
      | Except.error e => Except.error e := by
  induction l1 generalizing st with
  | nil => simp [procList]
  | cons rv rest ih =>
    simp only [List.cons_append, procList]
    cases procRecord imageRef st rv with
    | ok st' => exact ih st'
    | error e => rfl

theorem procResults_wf (imageRef : String) (data : List (List RawVuln)) (st : ScanState)
    (h : ∀ l ∈ data, ∀ rv ∈ l, rv.isDict = true ∧ rv.hasImageKey = false) :
    procResults imageRef st data =
      Except.ok (st.1 + data.flatten.length, (data.flatten.map rawSev).foldl bump st.2.1,
        st.2.2 ++ data.flatten.map (mkFinding imageRef)) := by
  induction data generalizing st with
  | nil => simp [procResults]
  | cons l rest ih =>
    simp only [procResults, procList_wf imageRef l st (h l (List.mem_cons_self l rest))]
    rw [ih (st.1 + l.length, (l.map rawSev).foldl bump st.2.1,
        st.2.2 ++ l.map (mkFinding imageRef))
      (fun x hx => h x (List.mem_cons_of_mem l hx))]
    simp only [List.flatten_cons, List.map_append, List.foldl_append, List.length_append,
      List.append_assoc, Except.ok.injEq, Prod.mk.injEq]
    exact ⟨by omega, trivial⟩

theorem scan_image_wf (imageRef : String) (data : List (List RawVuln))
    (h : ∀ l ∈ data, ∀ rv ∈ l, rv.isDict = true ∧ rv.hasImageKey = false) :
    scan_image imageRef data =
      { image := imageRef, findings := data.flatten.length,
        sev_counts := (data.flatten.map rawSev).foldl bump [],
        vulnerabilities := data.flatten.map (mkFinding imageRef) } := by
  simp [scan_image, procResults_wf imageRef data (0, [], []) h]

/-! Grouping lemmas. -/

/-- Contents of the bucket for one image and severity inside the grouping
dictionary, read the way the code reads it (empty when absent). -/
def bucketOf (g : Grouped) (img sev : String) : List Vulnerability :=
  (alookup ((alookup g img).getD []) sev).getD []

theorem isSome_alookup {α : Type} (m : List (String × α)) (k : String) :
    (alookup m k).isSome ↔ k ∈ m.map Prod.fst := by
  rw [← not_iff_not, ← alookup_eq_none m k]
  cases alookup m k <;> simp

theorem alookup_const_nil (l : List String) (s : String) :
    (alookup (l.map (fun x => (x, ([] : List Vulnerability)))) s).getD [] = [] := by
  induction l with
  | nil => simp [alookup]
  | cons x xs ih =>
    simp only [List.map_cons, alookup]
    split_ifs <;> simp [ih]

theorem alookup_foldl_initAset (results : List ScanResult) (g0 : Grouped) (img : String) :
    alookup (results.foldl (fun g r => aset g r.image initSevMap) g0) img =
      if img ∈ results.map ScanResult.image then some initSevMap else alookup g0 img := by
  induction results generalizing g0 with
  | nil => simp
  | cons r rest ih =>
    simp only [List.foldl_cons, ih, List.map_cons, List.mem_cons]
    by_cases h : img ∈ rest.map ScanResult.image
    · rw [if_pos h, if_pos (Or.inr h)]
    · rw [if_neg h, alookup_aset]
      by_cases h2 : img = r.image
      · rw [if_pos h2, if_pos (Or.inl h2)]
      · rw [if_neg h2, if_neg (by tauto)]

theorem bucketOf_groupInit (results : List ScanResult) (img sev : String) :
    bucketOf (groupInit results) img sev = [] := by
  unfold bucketOf groupInit
  rw [alookup_foldl_initAset results [] img]
  split_ifs with h
  · simp only [Option.getD_some, initSevMap]
    exact alookup_const_nil revSeverityOrder sev
  · simp [alookup]

theorem alookup_bucketAppend (m : SevMap) (s : String) (v : Vulnerability) (sev : String) :
    (alookup (bucketAppend m s v) sev).getD [] =
      (alookup m sev).getD [] ++ (if sev = s then [v] else []) := by
  simp only [bucketAppend]
  by_cases hp : (alookup m s).isSome
  · rw [if_pos hp, alookup_aset]
    by_cases hsev : sev = s
    · subst hsev; simp
    · simp [hsev]
  · rw [if_neg hp, alookup_aset]
    by_cases hsev : sev = s
    · subst hsev
      rw [if_pos rfl, alookup_aset, if_pos rfl]
      cases hmm : alookup m sev
      · simp
      · rw [hmm] at hp; simp at hp
    · rw [if_neg hsev, if_neg hsev, alookup_aset, if_neg hsev, List.append_nil]

theorem bucketOf_addVuln (g : Grouped) (v : Vulnerability) (img sev : String) :
    bucketOf (addVuln g v) img sev =
      bucketOf g img sev ++ (if effImage v = img ∧ sevUp v = sev then [v] else []) := by
  simp only [addVuln, bucketOf, alookup_aset]
  by_cases himg : img = effImage v
  · rw [if_pos himg, Option.getD_some, alookup_bucketAppend]
    have hM : ∀ sev' : String,
        (alookup ((alookup (if (alookup g (effImage v)).isSome then g
            else aset g (effImage v) initSevMap) (effImage v)).getD []) sev').getD [] =
          (alookup ((alookup g (effImage v)).getD []) sev').getD [] := by
      intro sev'
      by_cases hg : (alookup g (effImage v)).isSome
      · rw [if_pos hg]
      · rw [if_neg hg, alookup_aset, if_pos rfl, Option.getD_some]
        cases hx : alookup g (effImage v) with
        | none =>
          simp only [Option.getD_none, initSevMap]
          rw [alookup_const_nil revSeverityOrder sev']
          simp [alookup]
        | some _ => rw [hx] at hg; simp at hg
    rw [hM sev]
    subst himg
    by_cases hsev : sev = sevUp v
    · rw [if_pos hsev, if_pos ⟨rfl, hsev.symm⟩]
    · rw [if_neg hsev, if_neg (fun hc => hsev hc.2.symm)]
  · rw [if_neg himg]
    have hfalse : ¬(effImage v = img ∧ sevUp v = sev) := fun hc => himg hc.1.symm
    rw [if_neg hfalse, List.append_nil]
    by_cases hg : (alookup g (effImage v)).isSome
    · rw [if_pos hg]
    · rw [if_neg hg, alookup_aset, if_neg himg]

theorem bucketOf_foldl_addVuln (vs : List Vulnerability) (g0 : Grouped) (img sev : String) :
    bucketOf (vs.foldl addVuln g0) img sev =
      bucketOf g0 img sev ++
        vs.filter (fun v => decide (effImage v = img ∧ sevUp v = sev)) := by
  induction vs generalizing g0 with
  | nil => simp
  | cons v rest ih =>
    rw [List.foldl_cons, ih, bucketOf_addVuln, List.filter_cons, List.append_assoc]
    by_cases h : effImage v = img ∧ sevUp v = sev
    · rw [if_pos h]
      simp [h]
    · rw [if_neg h]
      simp [h]

theorem bucketOf_groupedDict (results : List ScanResult) (threshold : String)
    (img sev : String) :
    bucketOf (groupedDict results threshold) img sev =
      (filteredVulns results threshold).filter
        (fun v => decide (effImage v = img ∧ sevUp v = sev)) := by
  unfold groupedDict
  rw [bucketOf_foldl_addVuln, bucketOf_groupInit, List.nil_append]

theorem keys_addVuln (g : Grouped) (v : Vulnerability) :
    (addVuln g v).map Prod.fst =
      if (alookup g (effImage v)).isSome then g.map Prod.fst
      else g.map Prod.fst ++ [effImage v] := by
  simp only [addVuln]
  by_cases hg : (alookup g (effImage v)).isSome
  · rw [if_pos hg, if_pos hg, keys_aset, if_pos hg]
  · rw [if_neg hg, if_neg hg, keys_aset]
    have hsome : (alookup (aset g (effImage v) initSevMap) (effImage v)).isSome := by
      rw [alookup_aset, if_pos rfl]
      rfl
    rw [if_pos hsome, keys_aset, if_neg hg]

theorem mem_keys_addVuln (g : Grouped) (v : Vulnerability) (img : String) :
    img ∈ (addVuln g v).map Prod.fst ↔
      img ∈ g.map Prod.fst ∨ img = effImage v := by
  rw [keys_addVuln]
  by_cases hg : (alookup g (effImage v)).isSome
  · rw [if_pos hg]
    constructor
    · exact Or.inl
    · rintro (h | rfl)
      · exact h
      · exact (isSome_alookup g (effImage v)).mp hg
  · rw [if_neg hg]
    simp

theorem mem_keys_foldl_addVuln (vs : List Vulnerability) (g0 : Grouped) (img : String) :
    img ∈ (vs.foldl addVuln g0).map Prod.fst ↔
      img ∈ g0.map Prod.fst ∨ ∃ v ∈ vs, effImage v = img := by
  induction vs generalizing g0 with
  | nil => simp
  | cons v rest ih =>
    rw [List.foldl_cons, ih, mem_keys_addVuln]
    constructor
    · rintro ((h | rfl) | ⟨w, hw, rfl⟩)
      · exact Or.inl h
      · exact Or.inr ⟨v, List.mem_cons_self v rest, rfl⟩
      · exact Or.inr ⟨w, List.mem_cons_of_mem v hw, rfl⟩
    · rintro (h | ⟨w, hw, rfl⟩)
      · exact Or.inl (Or.inl h)
      · rcases List.mem_cons.mp hw with rfl | hw'
        · exact Or.inl (Or.inr rfl)
        · exact Or.inr ⟨w, hw', rfl⟩

theorem nodup_keys_addVuln (g : Grouped) (v : Vulnerability)
    (h : (g.map Prod.fst).Nodup) : ((addVuln g v).map Prod.fst).Nodup := by
  rw [keys_addVuln]
  split_ifs with hg
  · exact h
  · have hmem : effImage v ∉ g.map Prod.fst := by
      intro hc
      exact hg ((isSome_alookup g (effImage v)).mpr hc)
    simp [List.nodup_append, h, hmem]

theorem nodup_keys_foldl_addVuln (vs : List Vulnerability) (g0 : Grouped)
    (h : (g0.map Prod.fst).Nodup) : ((vs.foldl addVuln g0).map Prod.fst).Nodup := by
  induction vs generalizing g0 with
  | nil => exact h
  | cons v rest ih => exact ih (addVuln g0 v) (nodup_keys_addVuln g0 v h)

theorem nodup_keys_groupInit (results : List ScanResult) :
    ((groupInit results).map Prod.fst).Nodup := by
  unfold groupInit
  suffices hgen : ∀ g0 : Grouped, (g0.map Prod.fst).Nodup →
      ((results.foldl (fun g r => aset g r.image initSevMap) g0).map Prod.fst).Nodup by
    exact hgen [] (by simp)
  induction results with
  | nil => exact fun g0 h => h
  | cons r rest ih =>
    intro g0 h
    exact ih (aset g0 r.image initSevMap) (nodup_keys_aset g0 r.image initSevMap h)

theorem mem_keys_groupInit (results : List ScanResult) (img : String) :
    img ∈ (groupInit results).map Prod.fst ↔ img ∈ results.map ScanResult.image := by
  rw [← isSome_alookup]
  unfold groupInit
  rw [alookup_foldl_initAset results [] img]
  split_ifs with h <;> simp [alookup, h]

theorem nodup_keys_groupedDict (results : List ScanResult) (threshold : String) :
    ((groupedDict results threshold).map Prod.fst).Nodup :=
  nodup_keys_foldl_addVuln (filteredVulns results threshold) (groupInit results)
    (nodup_keys_groupInit results)

theorem mem_keys_groupedDict (results : List ScanResult) (threshold : String)
    (img : String) :
    img ∈ (groupedDict results threshold).map Prod.fst ↔
      img ∈ results.map ScanResult.image ∨
        ∃ v ∈ filteredVulns results threshold, effImage v = img := by
  unfold groupedDict
  rw [mem_keys_foldl_addVuln, mem_keys_groupInit]

/-! Lemmas about the compact output. -/

theorem opt_bucket_cond (o : Option (List Vulnerability)) :
    (o.isSome && !(o.getD []).isEmpty) = !(o.getD []).isEmpty := by
  cases o <;> simp

theorem images_compactGrouped (g : Grouped) :
    (compactGrouped g).map GroupEntry.image = g.map Prod.fst := by
  simp [compactGrouped]

theorem image_mem_compactGrouped (g : Grouped) (img : String)
    (h : img ∈ g.map Prod.fst) : ∃ e ∈ compactGrouped g, e.image = img := by
  obtain ⟨p, hp, rfl⟩ := List.mem_map.mp h
  refine ⟨_, List.mem_map.mpr ⟨p, hp, rfl⟩, rfl⟩

theorem severities_compactGrouped (g : Grouped) (hnodup : (g.map Prod.fst).Nodup)
    (e : GroupEntry) (he : e ∈ compactGrouped g) :
    e.severities =
      (revSeverityOrder.filter (fun s => !(bucketOf g e.image s).isEmpty)).map
        (fun s => (s, bucketOf g e.image s)) := by
  obtain ⟨p, hp, rfl⟩ := List.mem_map.mp he
  have hl : alookup g p.1 = some p.2 :=
    alookup_of_mem g hnodup p.1 p.2 (by simpa using hp)
  have hb : ∀ s, bucketOf g p.1 s = (alookup p.2 s).getD [] := by
    intro s
    simp [bucketOf, hl]
  simp only [hb, opt_bucket_cond]

/-! Deduplication lemmas for scan_all. -/

theorem isSome_alookup_aset {α : Type} (m : List (String × α)) (k : String) (v : α)
    (x : String) :
    (alookup (aset m k v) x).isSome = ((alookup m x).isSome || decide (x = k)) := by
  rw [alookup_aset]
  split_ifs with h <;> simp [h]

theorem lookupD_apush {α : Type} (m : List (String × List α)) (k : String) (a : α)
    (x : String) :
    lookupD (aset m k (lookupD m k [] ++ [a])) x [] =
      lookupD m x [] ++ (if x = k then [a] else []) := by
  simp only [lookupD, alookup_aset]
  split_ifs with h
  · subst h; simp [lookupD]
  · simp

theorem dedupFold_fst (excludeLabel : String) (containers : List Container) :
    (dedupFold excludeLabel containers).1 =
      (containers.filter (fun c => !(has_exclude_label excludeLabel c))).map imageOf := by
  unfold dedupFold
  suffices hgen : ∀ acc : List String × List (String × List String),
      (containers.foldl
        (fun acc c =>
          if has_exclude_label excludeLabel c then acc
          else (acc.1 ++ [imageOf c],
            aset acc.2 (imageOf c) (lookupD acc.2 (imageOf c) [] ++ [c.name]))) acc).1 =
        acc.1 ++ (containers.filter (fun c => !(has_exclude_label excludeLabel c))).map imageOf by
    simpa using hgen ([], [])
  induction containers with
  | nil => simp
  | cons c rest ih =>
    intro acc
    rw [List.foldl_cons, List.filter_cons]
    by_cases h : has_exclude_label excludeLabel c
    · rw [if_pos h, ih]
      simp [h]
    · rw [if_neg h, ih]
      simp [h]

theorem dedupFold_snd (excludeLabel : String) (containers : List Container) (x : String) :
    lookupD (dedupFold excludeLabel containers).2 x [] =
      (containers.filter (fun c =>
        !(has_exclude_label excludeLabel c) && decide (imageOf c = x))).map
        Container.name := by
  unfold dedupFold
  suffices hgen : ∀ acc : List String × List (String × List String),
      lookupD (containers.foldl
        (fun acc c =>
          if has_exclude_label excludeLabel c then acc
          else (acc.1 ++ [imageOf c],
            aset acc.2 (imageOf c) (lookupD acc.2 (imageOf c) [] ++ [c.name]))) acc).2 x [] =
        lookupD acc.2 x [] ++
          (containers.filter (fun c =>
            !(has_exclude_label excludeLabel c) && decide (imageOf c = x))).map
            Container.name by
    simpa [lookupD, alookup] using hgen ([], [])
  induction containers with
  | nil => simp
  | cons c rest ih =>
    intro acc
    rw [List.foldl_cons, List.filter_cons]
    by_cases h : has_exclude_label excludeLabel c
    · rw [if_pos h, ih]
      simp [h]
    · rw [if_neg h, ih]
      by_cases hx : imageOf c = x
      · subst hx
        simp [h, lookupD_apush]
      · have hx' : ¬x = imageOf c := fun hh => hx hh.symm
        simp [h, hx, hx', lookupD_apush]

theorem dedupFold_snd_isSome (excludeLabel : String) (containers : List Container)
    (x : String) :
    (alookup (dedupFold excludeLabel containers).2 x).isSome = true ↔
      ∃ c ∈ containers, has_exclude_label excludeLabel c = false ∧ imageOf c = x := by
  unfold dedupFold
  suffices hgen : ∀ acc : List String × List (String × List String),
      (alookup (containers.foldl
        (fun acc c =>
          if has_exclude_label excludeLabel c then acc
          else (acc.1 ++ [imageOf c],
            aset acc.2 (imageOf c) (lookupD acc.2 (imageOf c) [] ++ [c.name]))) acc).2 x).isSome =
        ((alookup acc.2 x).isSome ||
          containers.any (fun c =>
            !(has_exclude_label excludeLabel c) && decide (imageOf c = x))) by
    rw [hgen ([], [])]
    simp only [alookup, Option.isSome_none, Bool.false_or, List.any_eq_true,
      Bool.and_eq_true, Bool.not_eq_true', decide_eq_true_eq]
  induction containers with
  | nil => simp
  | cons c rest ih =>
    intro acc
    rw [List.foldl_cons, List.any_cons]
    by_cases h : has_exclude_label excludeLabel c
    · rw [if_pos h, ih]
      simp [h]
    · rw [if_neg h, ih]
      simp only [isSome_alookup_aset, h, Bool.not_false, Bool.true_and]
      have hcomm : decide (x = imageOf c) = decide (imageOf c = x) := by
        simp [eq_comm]
      rw [hcomm]
      cases (alookup acc.2 x).isSome <;>
        cases decide (imageOf c = x) <;>
          simp [Bool.or_comm, Bool.or_assoc, Bool.or_left_comm]

/-! Sort-key lemmas for the attachment ordering. -/

theorem sevIndex_lt_length (l : List String) (s : String) (i : Nat)
    (h : sevIndex l s = some i) : i < l.length := by
  induction l generalizing i with
  | nil => simp [sevIndex] at h
  | cons x xs ih =>
    simp only [sevIndex] at h
    split_ifs at h with hx
    · cases h
      simp
    · cases hm : sevIndex xs s with
      | none => rw [hm] at h; simp at h
      | some j =>
        rw [hm] at h
        simp at h
        have := ih j hm
        simp only [List.length_cons]
        omega

theorem sevIndex_isSome_of_mem (l : List String) (s : String) (h : s ∈ l) :
    (sevIndex l s).isSome := by
  induction l with
  | nil => simp at h
  | cons x xs ih =>
    simp only [sevIndex]
    split_ifs with hx
    · rfl
    · rcases List.mem_cons.mp h with rfl | h'
      · exact absurd rfl hx
      · cases hm : sevIndex xs s with
        | none => rw [hm] at ih; exact absurd (ih h') (by simp)
        | some j => simp

theorem sortKey_ge (w : Vulnerability) : -(SEVERITY_ORDER.length : Int) ≤ sortKey w := by
  unfold sortKey
  split_ifs with h
  · cases hm : sevIndex SEVERITY_ORDER (sevUp w) with
    | none =>
      have := sevIndex_isSome_of_mem SEVERITY_ORDER (sevUp w) h
      rw [hm] at this
      simp at this
    | some i =>
      have hlt := sevIndex_lt_length SEVERITY_ORDER (sevUp w) i hm
      simp only [Option.getD_some]
      omega
  · exact le_refl _

theorem sortKey_nonpos (w : Vulnerability) : sortKey w ≤ 0 := by
  unfold sortKey
  split_ifs with h
  · omega
  · simp [SEVERITY_ORDER]

/-! Claim theorems. -/

theorem rank_code_eq_spec (s : String) :
    rankOf (if s = "" then "UNKNOWN" else upper s) = specRank s := by
  by_cases hs : s = ""
  · subst hs
    decide
  · rw [if_neg hs]
    rfl

/-- C2 (counterexample): the claim normalizes an empty input in either
argument position to UNKNOWN with rank 0, which would make
meets_threshold "UNKNOWN" "" true (0 >= 0); the code instead defaults an
empty threshold to LOW, so the call returns false. -/
theorem c2_counterexample :
    specRank "UNKNOWN" ≥ specRank "" ∧ meets_threshold "UNKNOWN" "" = false := by
  decide

/-- C2 (amended): meets_threshold severity threshold is true exactly when
rank(severity) >= rank(threshold) under the claim's rank (case-folded
canonical lookup, unrecognized or empty severity rank 0, unrecognized
nonempty threshold rank 0), except that an EMPTY threshold is normalized to
LOW (rank 1) rather than UNKNOWN; meets_threshold x x holds for every
canonical level x and meets_threshold "UNKNOWN" "LOW" is false. -/
theorem c2_meets_threshold_amended :
    (∀ s t : String, meets_threshold s t = true ↔
      specRank s ≥ (if t = "" then 1 else specRank t)) ∧
    (∀ x ∈ SEVERITY_ORDER, meets_threshold x x = true) ∧
    meets_threshold "UNKNOWN" "LOW" = false := by
  refine ⟨?_, ?_, by decide⟩
  · intro s t
    have hs := rank_code_eq_spec s
    have ht : rankOf (if t = "" then "LOW" else upper t) =
        if t = "" then 1 else specRank t := by
      by_cases htt : t = ""
      · subst htt
        decide
      · rw [if_neg htt, if_neg htt]
        rfl
    simp only [meets_threshold, hs, ht, ge_iff_le, decide_eq_true_eq]
  · intro x hx
    have hx5 : x = "UNKNOWN" ∨ x = "LOW" ∨ x = "MEDIUM" ∨ x = "HIGH" ∨ x = "CRITICAL" := by
      simpa [SEVERITY_ORDER] using hx
    rcases hx5 with rfl | rfl | rfl | rfl | rfl <;> decide

/-- Witness for C2 (amended): instantiation at severity HIGH with the empty
threshold (which demands rank 1, the rank of LOW) and at the reflexive call
on LOW. -/
theorem c2_meets_threshold_amended_witness :
    (meets_threshold "HIGH" "" = true ↔ specRank "HIGH" ≥ 1) ∧
    meets_threshold "LOW" "LOW" = true := by
  constructor
  · have h := c2_meets_threshold_amended.1 "HIGH" ""
    rw [if_pos rfl] at h
    exact h
  · exact c2_meets_threshold_amended.2.1 "LOW" (by decide)

/-- C1 (counterexample): an artifact whose Vulnerabilities list holds one
non-object entry makes scan_image count the record (the findings increment
precedes the raise inside the loop) while the escape to the outer handler
leaves sev_counts and vulnerabilities untouched, so the invariant
findings = sum(sev_counts.values()) = len(vulnerabilities) fails. -/
theorem c1_counterexample :
    (scan_image "img" [[{ isDict := false }]]).findings = 1 ∧
    sumVals (scan_image "img" [[{ isDict := false }]]).sev_counts = 0 ∧
    (scan_image "img" [[{ isDict := false }]]).vulnerabilities.length = 0 ∧
    (scan_image "img" [[{ isDict := false }]]).findings ≠
      sumVals (scan_image "img" [[{ isDict := false }]]).sev_counts := by
  decide

/-- C1 (amended): for every image reference and every artifact all of whose
vulnerability entries process without raising (each entry a JSON object
without an own image key), the ScanResult returned by scan_image satisfies
findings = sum(sev_counts.values()) = len(vulnerabilities). -/
theorem c1_invariant_amended (imageRef : String) (data : List (List RawVuln))
    (h : ∀ l ∈ data, ∀ rv ∈ l, rv.isDict = true ∧ rv.hasImageKey = false) :
    (scan_image imageRef data).findings = sumVals (scan_image imageRef data).sev_counts ∧
    sumVals (scan_image imageRef data).sev_counts =
      (scan_image imageRef data).vulnerabilities.length := by
  rw [scan_image_wf imageRef data h]
  constructor
  · rw [sumVals_foldl_bump]
    simp only [sumVals, List.map_nil, List.sum_nil, List.length_map, Nat.zero_add]
  · rw [sumVals_foldl_bump]
    simp only [sumVals, List.map_nil, List.sum_nil, List.length_map, Nat.zero_add]

/-- Witness for C1 (amended): a two-record artifact with one HIGH and one
severity-less record satisfies the invariant. -/
theorem c1_invariant_amended_witness :
    (scan_image "img" [[{ severity := some "HIGH" }, {}]]).findings =
      sumVals (scan_image "img" [[{ severity := some "HIGH" }, {}]]).sev_counts ∧
    sumVals (scan_image "img" [[{ severity := some "HIGH" }, {}]]).sev_counts =
      (scan_image "img" [[{ severity := some "HIGH" }, {}]]).vulnerabilities.length :=
  c1_invariant_amended "img" [[{ severity := some "HIGH" }, {}]] (by decide)

/-- C6 (counterexample): a malformed (non-object) record followed by a
well-formed HIGH record: the exception handler wraps the whole parse loop,
so the well-formed record is neither counted in findings nor appended to
vulnerabilities — malformed records are not skipped individually. -/
theorem c6_counterexample :
    (scan_image "img"
      [[{ isDict := false }, { severity := some "HIGH", vulnId := "CVE-1" }]]).vulnerabilities
        = [] ∧
    (scan_image "img"
      [[{ isDict := false }, { severity := some "HIGH", vulnId := "CVE-1" }]]).findings = 1 := by
  decide

/-- C6 (amended): a record whose processing raises aborts the whole parse
loop: the records before it are kept (and the raising record was already
counted in findings), while every record after it — well-formed or not — is
ignored entirely; the scan still returns a ScanResult instead of failing. -/
theorem c6_malformed_aborts (imageRef : String) (pre : List RawVuln) (bad : RawVuln)
    (post : List RawVuln)
    (hpre : ∀ rv ∈ pre, rv.isDict = true ∧ rv.hasImageKey = false)
    (hbad : ¬(bad.isDict = true ∧ bad.hasImageKey = false)) :
    (scan_image imageRef [pre ++ bad :: post]).findings = pre.length + 1 ∧
    (scan_image imageRef [pre ++ bad :: post]).vulnerabilities =
      pre.map (mkFinding imageRef) := by
  obtain ⟨m, hm⟩ := procRecord_bad imageRef
    ((0 : Nat) + pre.length, (pre.map rawSev).foldl bump [],
      ([] : List Vulnerability) ++ pre.map (mkFinding imageRef)) bad hbad
  have hlist : procList imageRef ((0 : Nat), ([] : List (String × Nat)),
      ([] : List Vulnerability)) (pre ++ bad :: post) =
      Except.error (0 + pre.length + 1, m, [] ++ pre.map (mkFinding imageRef)) := by
    rw [procList_append, procList_wf imageRef pre (0, [], []) hpre]
    show procList imageRef (0 + pre.length, (pre.map rawSev).foldl bump [],
      [] ++ pre.map (mkFinding imageRef)) (bad :: post) = _
    rw [procList, hm]
  have hres : procResults imageRef (0, [], []) [pre ++ bad :: post] =
      Except.error (0 + pre.length + 1, m, [] ++ pre.map (mkFinding imageRef)) := by
    rw [procResults, hlist]
  simp only [scan_image, hres]
  constructor
  · omega
  · simp

/-- Witness for C6 (amended): one well-formed LOW record, then a non-object
record, then a well-formed HIGH record: findings is 2 and only the LOW
finding survives. -/
theorem c6_malformed_aborts_witness :
    (scan_image "img" [[{ severity := some "LOW", vulnId := "a" }, { isDict := false },
      { severity := some "HIGH", vulnId := "b" }]]).findings = 2 ∧
    (scan_image "img" [[{ severity := some "LOW", vulnId := "a" }, { isDict := false },
      { severity := some "HIGH", vulnId := "b" }]]).vulnerabilities =
      [{ severity := some "LOW", image := some "img", vulnId := "a" }] :=
  c6_malformed_aborts "img" [{ severity := some "LOW", vulnId := "a" }]
    { isDict := false } [{ severity := some "HIGH", vulnId := "b" }]
    (by decide) (by decide)

/-- C7 (counterexample): a record with severity "moderate" is tallied in
sev_counts under the uppercased verbatim key "MODERATE", which is not one of
the five canonical levels, and the stored Finding keeps the raw string
"moderate" — neither is normalized to UNKNOWN. -/
theorem c7_counterexample :
    (scan_image "img" [[{ severity := some "moderate", vulnId := "CVE-1" }]]).sev_counts =
      [("MODERATE", 1)] ∧
    "MODERATE" ∉ SEVERITY_ORDER ∧
    (scan_image "img" [[{ severity := some "moderate", vulnId := "CVE-1" }]]).vulnerabilities =
      [{ severity := some "moderate", image := some "img", vulnId := "CVE-1" }] := by
  decide

/-- C7 (amended): during scan-result construction the severity is uppercased
only for the sev_counts tally — a missing severity tallies as UNKNOWN, but an
unrecognized severity string is kept (uppercased) verbatim as the key, so
sev_counts keys are the uppercased raw severities and need not be canonical;
the Finding itself stores the raw severity unchanged. -/
theorem c7_severity_amended (imageRef : String) (data : List (List RawVuln))
    (h : ∀ l ∈ data, ∀ rv ∈ l, rv.isDict = true ∧ rv.hasImageKey = false) :
    (∀ k, lookupD (scan_image imageRef data).sev_counts k 0 =
      (data.flatten.map rawSev).count k) ∧
    (∀ k, (alookup (scan_image imageRef data).sev_counts k).isSome =
      (data.flatten.map rawSev).contains k) ∧
    ((scan_image imageRef data).vulnerabilities.map Vulnerability.severity =
      data.flatten.map RawVuln.severity) ∧
    (∀ rv : RawVuln, rv.severity = none → rawSev rv = "UNKNOWN") := by
  rw [scan_image_wf imageRef data h]
  refine ⟨?_, ?_, ?_, ?_⟩
  · intro k
    simp only [lookupD_foldl_bump]
    simp [lookupD, alookup]
  · intro k
    simp only [isSome_alookup_foldl_bump]
    simp [alookup]
  · simp [mkFinding, List.map_map]
    rfl
  · intro rv hrv
    show upper (rv.severity.getD "UNKNOWN") = "UNKNOWN"
    rw [hrv]
    decide

/-- Witness for C7 (amended): a severity-less record and a "moderate" record;
the tally holds the non-canonical key MODERATE with count 1, and the missing
severity normalizes to UNKNOWN. -/
theorem c7_severity_amended_witness :
    lookupD (scan_image "img"
        [[{ severity := none }, { severity := some "moderate" }]]).sev_counts "MODERATE" 0 =
      (([[({ severity := none } : RawVuln), { severity := some "moderate" }]] :
        List (List RawVuln)).flatten.map rawSev).count "MODERATE" ∧
    rawSev { severity := none } = "UNKNOWN" :=
  ⟨(c7_severity_amended "img" [[{ severity := none }, { severity := some "moderate" }]]
      (by decide)).1 "MODERATE",
   (c7_severity_amended "img" [[{ severity := none }]] (by decide)).2.2.2
     { severity := none } rfl⟩

/-- C3: the notification gate of main is true exactly when some finding of
some result meets the threshold (no image-level filtering is involved), and
when it is false main returns before rendering report bodies, building
attachments or sending the email. -/
theorem c3_notification_gate (results : List ScanResult) (threshold : String) :
    (shouldNotify results threshold = true ↔
      ∃ r ∈ results, ∃ v ∈ r.vulnerabilities,
        meets_threshold (v.severity.getD "UNKNOWN") threshold = true) ∧
    (shouldNotify results threshold = false →
      ∀ attachJson, mainRun results threshold attachJson = none) := by
  constructor
  · simp [shouldNotify, List.any_eq_true]
  · intro hf attachJson
    unfold mainRun
    split_ifs with h1 h2
    · rfl
    · rw [hf] at h2
      exact absurd h2 (by simp)
    · rfl

/-- Sample scan result with a single MEDIUM finding, the spec's gate
example. -/
def sampleMedResult : ScanResult :=
  { image := "app:1", findings := 1, sev_counts := [("MEDIUM", 1)],
    vulnerabilities :=
      [{ severity := some "MEDIUM", image := some "app:1", vulnId := "CVE-1" }] }

/-- Witness for C3: one MEDIUM finding against threshold HIGH keeps the gate
closed and main sends nothing. -/
theorem c3_notification_gate_witness :
    shouldNotify [sampleMedResult] "HIGH" = false ∧
    mainRun [sampleMedResult] "HIGH" true = none := by
  refine ⟨by decide, ?_⟩
  exact (c3_notification_gate [sampleMedResult] "HIGH").2 (by decide) true

/-- C5: deduplication in scan_all yields the distinct image references of the
non-excluded containers sorted, and maps each image reference to the names of
the non-excluded containers using it in traversal order; containers carrying
the exclusion label contribute to neither output. -/
theorem c5_dedup_mapping (excludeLabel : String) (containers : List Container) :
    List.Sorted (fun a b : String => a ≤ b) (unique_refs excludeLabel containers) ∧
    (unique_refs excludeLabel containers).Nodup ∧
    (∀ x, x ∈ unique_refs excludeLabel containers ↔
      ∃ c ∈ containers, has_exclude_label excludeLabel c = false ∧ imageOf c = x) ∧
    (∀ x, lookupD (container_mapping excludeLabel containers) x [] =
      (containers.filter (fun c =>
        !(has_exclude_label excludeLabel c) && decide (imageOf c = x))).map
        Container.name) ∧
    (∀ x, (alookup (container_mapping excludeLabel containers) x).isSome = true ↔
      ∃ c ∈ containers, has_exclude_label excludeLabel c = false ∧ imageOf c = x) := by
  refine ⟨?_, ?_, ?_, ?_, ?_⟩
  · exact List.sorted_insertionSort _ _
  · exact ((List.perm_insertionSort _ _).nodup_iff).mpr (List.nodup_dedup _)
  · intro x
    rw [unique_refs, (List.perm_insertionSort _ _).mem_iff, List.mem_dedup, dedupFold_fst]
    simp only [List.mem_map, List.mem_filter, Bool.not_eq_true']
    constructor
    · rintro ⟨c, ⟨hc, hex⟩, rfl⟩
      exact ⟨c, hc, hex, rfl⟩
    · rintro ⟨c, hc, hex, rfl⟩
      exact ⟨c, ⟨hc, hex⟩, rfl⟩
  · exact dedupFold_snd excludeLabel containers
  · exact dedupFold_snd_isSome excludeLabel containers

/-- Sample containers: two distinct containers sharing imgA, one of which is
excluded via the fixed label, plus one imgB container. -/
def cAlpha : Container := { name := "n1", imageTags := ["imgB:1"] }

def cBeta : Container := { name := "n2", imageTags := ["imgA:1"] }

def cGamma : Container :=
  { name := "n3", imageTags := ["imgA:1"], labels := [("docktor.ignore", "true")] }

/-- Witness for C5: imgA:1 is still scanned because of the non-excluded
container n2, and its mapping lists only n2 even though excluded n3 shares
the image. -/
theorem c5_dedup_mapping_witness :
    "imgA:1" ∈ unique_refs "docktor.ignore=true" [cAlpha, cBeta, cGamma] ∧
    lookupD (container_mapping "docktor.ignore=true" [cAlpha, cBeta, cGamma]) "imgA:1" [] =
      ([cAlpha, cBeta, cGamma].filter (fun c =>
        !(has_exclude_label "docktor.ignore=true" c) && decide (imageOf c = "imgA:1"))).map
        Container.name := by
  constructor
  · exact ((c5_dedup_mapping "docktor.ignore=true" [cAlpha, cBeta, cGamma]).2.2.1
      "imgA:1").mpr ⟨cBeta, by decide, by decide, by decide⟩
  · exact (c5_dedup_mapping "docktor.ignore=true" [cAlpha, cBeta, cGamma]).2.2.2.1 "imgA:1"

theorem sortKey_of_no_severity (v : Vulnerability) (h : v.severity = none) :
    sortKey v = 0 := by
  have h1 : sevUp v = "UNKNOWN" := by
    show upper (v.severity.getD "UNKNOWN") = "UNKNOWN"
    rw [h]
    decide
  unfold sortKey
  rw [h1]
  decide

/-- Sample findings for the attachment ordering: a categorized HIGH one, a
non-canonical MODERATE one and one with no severity at all. -/
def vHigh : Vulnerability := { severity := some "HIGH", vulnId := "h" }

def vModerate : Vulnerability := { severity := some "MODERATE", vulnId := "m" }

def vNoSev : Vulnerability := { vulnId := "u" }

/-- C8 (counterexample): build_attachments gives a severity outside the
canonical set the key -len(SEVERITY_ORDER) = -5, which sorts BEFORE every
categorized severity: the MODERATE finding lands above the HIGH one, so
non-categorized severities do rank above categorized findings. -/
theorem c8_counterexample :
    orderedVulns { image := "img", vulnerabilities := [vHigh, vModerate] } =
      [vModerate, vHigh] ∧
    sevUp vModerate ∉ SEVERITY_ORDER ∧ sevUp vHigh ∈ SEVERITY_ORDER := by
  decide

/-- C8 (amended): the per-image attachment sink sorts findings ascending by
the code's key (descending severity rank for canonical severities); a finding
with an ABSENT severity gets UNKNOWN's key 0 and never sorts above any other
finding, but a finding whose severity string is outside the canonical set
gets key -len(SEVERITY_ORDER) and sorts before (above) every finding,
including categorized ones. -/
theorem c8_attachment_sort_amended (r : ScanResult) :
    List.Sorted sortLe (orderedVulns r) ∧
    List.Perm (orderedVulns r) r.vulnerabilities ∧
    (∀ v : Vulnerability, v.severity = none → sortKey v = 0) ∧
    (∀ v w : Vulnerability, v.severity = none → sortKey w ≤ sortKey v) ∧
    (∀ v w : Vulnerability, sevUp v ∉ SEVERITY_ORDER → sortKey v ≤ sortKey w) := by
  refine ⟨List.sorted_insertionSort sortLe r.vulnerabilities,
    List.perm_insertionSort sortLe r.vulnerabilities,
    fun v h => sortKey_of_no_severity v h, ?_, ?_⟩
  · intro v w h
    rw [sortKey_of_no_severity v h]
    exact sortKey_nonpos w
  · intro v w h
    have hv : sortKey v = -(SEVERITY_ORDER.length : Int) := by
      unfold sortKey
      rw [if_neg h]
    rw [hv]
    exact sortKey_ge w

/-- Sample result used by the C8 witness. -/
def rSortSample : ScanResult :=
  { image := "i", findings := 3, vulnerabilities := [vNoSev, vHigh, vModerate] }

/-- Witness for C8 (amended): the concrete three-finding result is sorted,
the severity-less finding keys to 0 and is not outranked by HIGH, and the
MODERATE finding keys below HIGH. -/
theorem c8_attachment_sort_amended_witness :
    List.Sorted sortLe (orderedVulns rSortSample) ∧
    sortKey vNoSev = 0 ∧
    sortKey vHigh ≤ sortKey vNoSev ∧
    sortKey vModerate ≤ sortKey vHigh := by
  have h := c8_attachment_sort_amended rSortSample
  exact ⟨h.1, h.2.2.1 vNoSev rfl, h.2.2.2.1 vNoSev vHigh rfl,
    h.2.2.2.2 vModerate vHigh (by decide)⟩

/-- C9: grouping is a pure function of its inputs: threading the result list
through the call as an explicit store hands it back unchanged, the computed
report is the one group_vulns_by_image_and_severity computes, and running the
grouping again on the post-call store yields structurally identical output. -/
theorem c9_grouping_pure (results : List ScanResult) (threshold : String) :
    (group_vulns_st results threshold).1 = results ∧
    (group_vulns_st results threshold).2 =
      group_vulns_by_image_and_severity results threshold ∧
    (group_vulns_st (group_vulns_st results threshold).1 threshold).2 =
      (group_vulns_st results threshold).2 :=
  ⟨rfl, rfl, rfl⟩

/-- C4: the grouped report has exactly one entry per image of the results
(clean images keep an empty severities list), every filtered finding's
effective image — including one naming an image absent from the results,
which yields a synthetic group — appears among the entries, each entry's
buckets are exactly the canonical severities in strictly descending rank
order whose bucket of threshold-passing findings for that image is nonempty,
and each bucket holds exactly those findings. -/
theorem c4_grouped_report (results : List ScanResult) (threshold : String) :
    ((group_vulns_by_image_and_severity results threshold).map GroupEntry.image).Nodup ∧
    (∀ r ∈ results, ∃ e ∈ group_vulns_by_image_and_severity results threshold,
      e.image = r.image) ∧
    (∀ v ∈ filteredVulns results threshold,
      ∃ e ∈ group_vulns_by_image_and_severity results threshold, e.image = effImage v) ∧
    (∀ e ∈ group_vulns_by_image_and_severity results threshold,
      e.severities =
        (revSeverityOrder.filter (fun s =>
          !((filteredVulns results threshold).filter
            (fun v => decide (effImage v = e.image ∧ sevUp v = s))).isEmpty)).map
          (fun s => (s, (filteredVulns results threshold).filter
            (fun v => decide (effImage v = e.image ∧ sevUp v = s))))) ∧
    (∀ e ∈ group_vulns_by_image_and_severity results threshold,
      (e.severities.map Prod.fst).Pairwise (fun a b => rankOf b < rankOf a)) ∧
    (∀ e ∈ group_vulns_by_image_and_severity results threshold,
      (∀ v ∈ filteredVulns results threshold, effImage v ≠ e.image) →
        e.severities = []) := by
  have hnodup := nodup_keys_groupedDict results threshold
  have hchar : ∀ e ∈ group_vulns_by_image_and_severity results threshold,
      e.severities = (revSeverityOrder.filter (fun s =>
        !((filteredVulns results threshold).filter
          (fun v => decide (effImage v = e.image ∧ sevUp v = s))).isEmpty)).map
        (fun s => (s, (filteredVulns results threshold).filter
          (fun v => decide (effImage v = e.image ∧ sevUp v = s)))) := by
    intro e he
    have h1 := severities_compactGrouped (groupedDict results threshold) hnodup e he
    simpa only [bucketOf_groupedDict] using h1
  refine ⟨?_, ?_, ?_, hchar, ?_, ?_⟩
  · show ((compactGrouped (groupedDict results threshold)).map GroupEntry.image).Nodup
    rw [images_compactGrouped]
    exact hnodup
  · intro r hr
    apply image_mem_compactGrouped
    rw [mem_keys_groupedDict]
    exact Or.inl (List.mem_map.mpr ⟨r, hr, rfl⟩)
  · intro v hv
    apply image_mem_compactGrouped
    rw [mem_keys_groupedDict]
    exact Or.inr ⟨v, hv, rfl⟩
  · intro e he
    rw [hchar e he]
    have hpw : revSeverityOrder.Pairwise (fun a b : String => rankOf b < rankOf a) := by
      decide
    have hsub : (revSeverityOrder.filter (fun s =>
        !((filteredVulns results threshold).filter
          (fun v => decide (effImage v = e.image ∧ sevUp v = s))).isEmpty)).Sublist
        revSeverityOrder := List.filter_sublist _
    rw [List.map_map, List.pairwise_map]
    exact hpw.sublist hsub
  · intro e he hnone
    rw [hchar e he]
    have hfe : ∀ s, (filteredVulns results threshold).filter
        (fun v => decide (effImage v = e.image ∧ sevUp v = s)) = [] := by
      intro s
      rw [List.filter_eq_nil_iff]
      intro v hv
      simp only [decide_eq_true_eq, not_and]
      intro hc
      exact absurd hc (hnone v hv)
    simp [hfe]
    intro a ha x hx hex
    exact fun h2 => (hnone x hx) hex

/-- Sample results used by the C4 witness: image a has only a LOW finding,
image b has a CRITICAL and a LOW finding. -/
def rLowSample : ScanResult :=
  { image := "a", findings := 1, sev_counts := [("LOW", 1)],
    vulnerabilities := [{ severity := some "LOW", image := some "a", vulnId := "l1" }] }

def rCritSample : ScanResult :=
  { image := "b", findings := 2, sev_counts := [("CRITICAL", 1), ("LOW", 1)],
    vulnerabilities :=
      [{ severity := some "CRITICAL", image := some "b", vulnId := "c1" },
       { severity := some "LOW", image := some "b", vulnId := "l2" }] }

/-- Witness for C4: under threshold MEDIUM the clean image a still has an
entry, and the entry for image b carries exactly the single CRITICAL
bucket. -/
theorem c4_grouped_report_witness :
    (∃ e ∈ group_vulns_by_image_and_severity [rLowSample, rCritSample] "MEDIUM",
      e.image = rLowSample.image) ∧
    (({ image := "b",
        severities := [("CRITICAL",
          [{ severity := some "CRITICAL", image := some "b", vulnId := "c1" }])] } :
        GroupEntry).severities =
      (revSeverityOrder.filter (fun s =>
        !((filteredVulns [rLowSample, rCritSample] "MEDIUM").filter
          (fun v => decide (effImage v = "b" ∧ sevUp v = s))).isEmpty)).map
        (fun s => (s, (filteredVulns [rLowSample, rCritSample] "MEDIUM").filter
          (fun v => decide (effImage v = "b" ∧ sevUp v = s))))) := by
  constructor
  · exact (c4_grouped_report [rLowSample, rCritSample] "MEDIUM").2.1 rLowSample
      (List.mem_cons_self rLowSample [rCritSample])
  · exact (c4_grouped_report [rLowSample, rCritSample] "MEDIUM").2.2.2.1
      { image := "b",
        severities := [("CRITICAL",
          [{ severity := some "CRITICAL", image := some "b", vulnId := "c1" }])] }
      (by decide)

/-- C10: a filtered finding whose uppercased severity is not one of the five
canonical levels is appended to the grouping dictionary under that
non-canonical key, yet no emitted severity bucket of the compact report
contains it (buckets are emitted for canonical severities only); such a
record is nevertheless counted by scan_image in findings and tallied in
sev_counts under its uppercased key. -/
theorem c10_hidden_bucket :
    (∀ (results : List ScanResult) (threshold : String) (v : Vulnerability),
      v ∈ filteredVulns results threshold → sevUp v ∉ SEVERITY_ORDER →
      v ∈ bucketOf (groupedDict results threshold) (effImage v) (sevUp v) ∧
      ∀ e ∈ group_vulns_by_image_and_severity results threshold,
        ∀ p ∈ e.severities, v ∉ p.2) ∧
    (∀ (imageRef : String) (rv : RawVuln) (s : String),
      rv.isDict = true → rv.hasImageKey = false → rv.severity = some s →
      (scan_image imageRef [[rv]]).findings = 1 ∧
      lookupD (scan_image imageRef [[rv]]).sev_counts (upper s) 0 = 1) := by
  constructor
  · intro results threshold v hv hnc
    constructor
    · rw [bucketOf_groupedDict]
      exact List.mem_filter.mpr ⟨hv, by simp⟩
    · intro e he p hp hvp
      have hchar := severities_compactGrouped (groupedDict results threshold)
        (nodup_keys_groupedDict results threshold) e he
      rw [hchar] at hp
      obtain ⟨s, hs, rfl⟩ := List.mem_map.mp hp
      have hs' : s ∈ SEVERITY_ORDER := by
        have := (List.mem_filter.mp hs).1
        rw [revSeverityOrder] at this
        exact List.mem_reverse.mp this
      rw [bucketOf_groupedDict] at hvp
      have hpred := (List.mem_filter.mp hvp).2
      simp only [decide_eq_true_eq] at hpred
      exact hnc (hpred.2 ▸ hs')
  · intro imageRef rv s hd hk hs
    have hwf : ∀ l ∈ [[rv]], ∀ r ∈ l, r.isDict = true ∧ r.hasImageKey = false := by
      intro l hl r hr
      simp only [List.mem_singleton] at hl
      subst hl
      simp only [List.mem_singleton] at hr
      subst hr
      exact ⟨hd, hk⟩
    rw [scan_image_wf imageRef [[rv]] hwf]
    have hraw : rawSev rv = upper s := by
      show upper (rv.severity.getD "UNKNOWN") = upper s
      rw [hs]
      rfl
    constructor
    · simp
    · show lookupD (([[rv]].flatten.map rawSev).foldl bump []) (upper s) 0 = 1
      rw [lookupD_foldl_bump]
      simp [hraw, lookupD, alookup]

/-- Sample finding with the non-canonical severity "moderate" and its
ScanResult, used by the C10 witness. -/
def vMod : Vulnerability :=
  { severity := some "moderate", image := some "c", vulnId := "mod1" }

def rModSample : ScanResult :=
  { image := "c", findings := 1, sev_counts := [("MODERATE", 1)],
    vulnerabilities := [vMod] }

/-- Witness for C10: the "moderate" finding passes the UNKNOWN threshold,
lands in the internal MODERATE bucket, is absent from every emitted bucket,
and the corresponding raw record is counted and tallied by scan_image. -/
theorem c10_hidden_bucket_witness :
    (vMod ∈ bucketOf (groupedDict [rModSample] "UNKNOWN") (effImage vMod) (sevUp vMod) ∧
      ∀ e ∈ group_vulns_by_image_and_severity [rModSample] "UNKNOWN",
        ∀ p ∈ e.severities, vMod ∉ p.2) ∧
    ((scan_image "c" [[{ severity := some "moderate", vulnId := "mod1" }]]).findings = 1 ∧
      lookupD (scan_image "c"
        [[{ severity := some "moderate", vulnId := "mod1" }]]).sev_counts
        (upper "moderate") 0 = 1) :=
  ⟨c10_hidden_bucket.1 [rModSample] "UNKNOWN" vMod (by decide) (by decide),
   c10_hidden_bucket.2 "c" { severity := some "moderate", vulnId := "mod1" } "moderate"
     rfl rfl rfl⟩
